import Mathlib

/-!
Verification of the gitwip utility: a scanner that walks a directory tree,
locates Git repositories, and reports the non-primary branches of each repository.

The development shallowly embeds the two Python sources:
  * the packaged implementation (src/gitwip/main.py): repository locator
    (get_git_repos), branch listing (get_repo_branches), primary-branch
    resolver (get_primary_branch) and report builder (find_repos_with_branches);
  * the legacy flat script (main.py): its locator (get_git_repos), for the
    refinement comparison.

External effects are abstracted as oracles:
  * a raw command runner of type List String → Option String gives, for an
    argument list passed to the VCS executable, the captured stdout on
    success (exit status 0) and none on failure (CalledProcessError);
  * the filesystem is a finitely branching tree of named directories
    (DirTree); only directory names matter to the locator;
  * path canonicalization (Path.resolve) is an oracle on component lists;
  * terminal styling is dropped: the embedding produces the unstyled text of
    each emitted line, which is what the core logic decides.

Paths are modelled as lists of path components of an absolute path.
-/

namespace Gitwip

/- ### Python string primitives used by the source -/

/-- Truthiness of an optional string in Python: a value of type
str or None is truthy iff it is a non-empty string. -/
def truthy : Option String → Bool
  | none => false
  | some s => !(s == "")

/-- Character-list trimming used to model Python str.strip (no argument):
drop whitespace from both ends. -/
def trimChars (l : List Char) : List Char :=
  ((l.dropWhile Char.isWhitespace).reverse.dropWhile Char.isWhitespace).reverse

/-- Model of Python str.strip (no argument). -/
def pyStrip (s : String) : String := String.mk (trimChars s.data)

/-- Helper for splitLines: cut a character list at newline characters.
A final newline closes the last line without opening an empty one,
as Python str.splitlines does. -/
def splitLinesAux (acc : List Char) : List Char → List (List Char)
  | [] => [acc.reverse]
  | c :: cs =>
    if c = '\n' then
      match cs with
      | [] => [acc.reverse]
      | _ :: _ => acc.reverse :: splitLinesAux [] cs
    else
      splitLinesAux (c :: acc) cs

/-- Model of Python str.splitlines restricted to the newline character,
the only line separator the embedded source ever feeds it. The empty
string yields no lines. -/
def splitLines (s : String) : List String :=
  if s = "" then [] else (splitLinesAux [] s.data).map String.mk

/-- Model of Python str.startswith for a single candidate. -/
def pyStartsWith (s p : String) : Bool := p.data.isPrefixOf s.data

/-- Model of Python str.removeprefix: drop the leading occurrence of p
from s if present, otherwise return s unchanged. -/
def removeLeading (p s : String) : String :=
  if pyStartsWith s p then String.mk (s.data.drop p.data.length) else s

/-- Helper: does pat occur as a contiguous sublist of the second list?
Models the Python substring test pat in line. -/
def containsSubAux (pat : List Char) : List Char → Bool
  | [] => pat.isEmpty
  | c :: cs => pat.isPrefixOf (c :: cs) || containsSubAux pat cs

/-- Model of the Python substring containment test pat in s. -/
def hasSubstring (s pat : String) : Bool := containsSubAux pat.data s.data

/-- Helper: the characters strictly after the first occurrence of c,
or none when c does not occur. -/
def afterChar (c : Char) : List Char → Option (List Char)
  | [] => none
  | x :: xs => if x = c then some xs else afterChar c xs

/- ### Primary branch resolver (src/gitwip/main.py, get_primary_branch) -/

/-- Argument list of the query made by the first resolver strategy. -/
def qSymbolicRef : List String := ["symbolic-ref", "refs/remotes/origin/HEAD"]

/-- Argument list of the query made by the second resolver strategy. -/
def qRemoteShow : List String := ["remote", "show", "origin"]

/-- Argument list of the existence probe for a conventional branch name. -/
def qShowRef (branch : String) : List String :=
  ["show-ref", "--verify", "refs/heads/" ++ branch]

/-- The nested helper run_git of get_primary_branch: run the VCS command,
return its stdout stripped of surrounding whitespace on success and none on
failure (stderr is suppressed and discarded). -/
def run_git (runRaw : List String → Option String) (args : List String) :
    Option String :=
  match runRaw args with
  | some out => some (pyStrip out)
  | none => none

/-- Line scan of strategy 2 (source lines 130-132): find the first line
containing the literal marker and return the text after the first colon on
that line, stripped. The marker itself contains a colon, so afterChar
always succeeds on a matching line; getD only discharges the impossible
branch. -/
def findHeadBranch : List String → Option String
  | [] => none
  | line :: rest =>
    if hasSubstring line "HEAD branch:" then
      some (pyStrip (String.mk ((afterChar ':' line.data).getD [])))
    else
      findHeadBranch rest

/-- The loop of strategy 3 (source lines 135-137): probe each candidate
branch name in order with show-ref --verify and return the first whose
probe output is truthy. -/
def probeLoop (runRaw : List String → Option String) : List String → Option String
  | [] => none
  | b :: bs =>
    if truthy (run_git runRaw (qShowRef b)) then some b else probeLoop runRaw bs

/-- Embedding of get_primary_branch (src/gitwip/main.py lines 106-139):
ordered fallback chain over the raw command runner of the repository. -/
def get_primary_branch (runRaw : List String → Option String) : Option String :=
  let ref := run_git runRaw qSymbolicRef
  if truthy ref then
    some (removeLeading "refs/remotes/origin/" (ref.getD ""))
  else
    let output := run_git runRaw qRemoteShow
    match (if truthy output then findHeadBranch (splitLines (output.getD "")) else none) with
    | some b => some b
    | none => probeLoop runRaw ["main", "master"]

end Gitwip

/- ### Filesystem model shared by both locator embeddings -/

/-- A directory: its name and its immediate subdirectories. Regular files
are omitted because the locators only ever inspect subdirectory names. -/
inductive DirTree where
  | mk : String → List DirTree → DirTree

/-- The name of a directory. -/
def DirTree.name : DirTree → String
  | .mk n _ => n

/-- The immediate subdirectories of a directory. -/
def DirTree.children : DirTree → List DirTree
  | .mk _ cs => cs

namespace Gitwip

/- ### Repository locator (src/gitwip/main.py, get_git_repos) -/

/-- The hidden-directory filter predicate of line 42: when skipping hidden
directories keep d iff it does not start with a dot or is exactly the VCS
metadata directory .git; without skipping keep everything. -/
def keepDir (skip_hidden_dirs : Bool) (d : String) : Bool :=
  !skip_hidden_dirs || !(pyStartsWith d ".") || d == ".git"

mutual
/-- One os.walk visit of get_git_repos (lines 40-45): prune dirnames by the
hidden filter, record dirpath and stop descending when .git remains among
the subdirectory names, otherwise walk the kept subdirectories in order. -/
def walkTree (skip_hidden_dirs : Bool) (dirpath : List String) :
    DirTree → List (List String)
  | .mk _ children =>
    if (children.filter fun c => keepDir skip_hidden_dirs c.name).any
        (fun c => c.name == ".git") then
      [dirpath]
    else
      walkChildren skip_hidden_dirs dirpath children
/-- Descent of os.walk into the subdirectories that survive the hidden
filter, in listing order. -/
def walkChildren (skip_hidden_dirs : Bool) (dirpath : List String) :
    List DirTree → List (List String)
  | [] => []
  | c :: cs =>
    (if keepDir skip_hidden_dirs c.name then
      walkTree skip_hidden_dirs (dirpath ++ [c.name]) c
    else []) ++ walkChildren skip_hidden_dirs dirpath cs
end

/-- Embedding of get_git_repos (src/gitwip/main.py lines 37-46): all
directories under root whose listing contains .git, with pruning. The root
directory is given together with the component path it was invoked with. -/
def get_git_repos (skip_hidden_dirs : Bool) (rootPath : List String)
    (root : DirTree) : List (List String) :=
  walkTree skip_hidden_dirs rootPath root

/- ### Branch listing (src/gitwip/main.py, get_repo_branches) -/

/-- Argument list of the branch-listing invocation of line 53. -/
def branchArgs : List String := ["branch", "--format=%(refname:short)"]

/-- Embedding of get_repo_branches (lines 49-60), abstracted over the raw
captured stdout of its single VCS invocation: on success, strip the output,
split it into lines and strip each line; on failure return the empty
list. -/
def get_repo_branches (rawResult : Option String) : List String :=
  match rawResult with
  | some out => (splitLines (pyStrip out)).map pyStrip
  | none => []

/- ### Report builder (src/gitwip/main.py, find_repos_with_branches) -/

/-- Rendering of an absolute path from its components, as Python str(Path)
does for an absolute path. -/
def pathStr (p : List String) : String := "/" ++ "/".intercalate p

/-- Helper for relative_to: the components of p after its prefix base, or
none when base is not a componentwise prefix of p. -/
def componentsAfter : List String → List String → Option (List String)
  | [], p => some p
  | _ :: _, [] => none
  | a :: as, b :: bs => if a = b then componentsAfter as bs else none

/-- Model of Python Path.relative_to: relativization succeeds exactly when
the base is a componentwise prefix (raising ValueError otherwise, modelled
as none). Relativizing a path to itself succeeds with the empty relative
path, which Python renders as the single component dot. -/
def relative_to (p base : List String) : Option (List String) :=
  componentsAfter base p

/-- Rendering of a relative path, as Python str(Path) does: the empty
relative path prints as a dot. -/
def relStr : List String → String
  | [] => "."
  | x :: xs => "/".intercalate (x :: xs)

/-- The display-path computation of lines 96-99: render the repository path
relative to home with a tilde prefix when relativization succeeds, and fall
back to the absolute path when it raises. -/
def display_path (home repo_path : List String) : String :=
  match relative_to repo_path home with
  | some rel => "~/" ++ relStr rel
  | none => pathStr repo_path

/-- The filter of line 94: retain the branches that differ from the
optional primary branch, where the Python inequality against None is always
true. -/
def filterBranches (all_branches : List String) (primary_branch : Option String) :
    List String :=
  all_branches.filter (fun b => !(some b == primary_branch))

/-- The body of the report loop (lines 92-103) for one repository, given
the per-repository raw command runner: list branches, resolve the primary
branch, filter, and emit header, branch lines and blank separator only when
the filtered list is non-empty. -/
def repoReport (home : List String)
    (gitRaw : List String → List String → Option String)
    (repo_path : List String) : List String :=
  let all_branches := get_repo_branches (gitRaw repo_path branchArgs)
  let primary_branch := get_primary_branch (gitRaw repo_path)
  let branches := filterBranches all_branches primary_branch
  if branches.isEmpty then []
  else
    ("=== " ++ display_path home repo_path ++ " ===")
      :: (branches.map (fun b => "* " ++ b) ++ [""])

/-- Codepoint-lexicographic comparison of character lists, the order Python
uses to compare the strings of two paths. -/
def chListLe : List Char → List Char → Bool
  | [], _ => true
  | _ :: _, [] => false
  | a :: as, b :: bs =>
    if a.toNat = b.toNat then chListLe as bs else decide (a.toNat < b.toNat)

/-- Path ordering of the report loop: compare the canonical path strings. -/
def pathLe (a b : List String) : Prop :=
  chListLe (pathStr a).data (pathStr b).data = true

instance : DecidableRel pathLe := fun a b => by
  unfold pathLe; infer_instance

/-- The iteration order of the report loop (lines 89-91): deduplicate the
resolved repository paths (the set comprehension) and sort them by their
canonical path string (sorted). -/
def repoIterationOrder (found : List (List String))
    (resolve : List String → List String) : List (List String) :=
  List.insertionSort pathLe ((found.map resolve).dedup)

/-- Embedding of find_repos_with_branches (lines 86-103): locate the
repositories, canonicalize and deduplicate their paths, and emit the
per-repository reports in sorted order. The oracles are the canonicalizer
resolve and the per-repository raw command runner gitRaw; home is the
resolved home directory. -/
def find_repos_with_branches (home : List String)
    (gitRaw : List String → List String → Option String)
    (resolve : List String → List String)
    (root : DirTree) (rootPath : List String) (skip_hidden_dirs : Bool) :
    List String :=
  (repoIterationOrder (get_git_repos skip_hidden_dirs rootPath root) resolve).flatMap
    (repoReport home gitRaw)

end Gitwip

namespace Legacy

/- ### The locator of the flat script (main.py, get_git_repos, lines 13-21) -/

/-- The hidden-directory filter predicate of main.py line 17. -/
def keepDir (skip_hidden_dirs : Bool) (d : String) : Bool :=
  !skip_hidden_dirs || !(Gitwip.pyStartsWith d ".") || d == ".git"

mutual
/-- One os.walk visit of the legacy get_git_repos (main.py lines 15-20). -/
def walkTree (skip_hidden_dirs : Bool) (dirpath : List String) :
    DirTree → List (List String)
  | .mk _ children =>
    if (children.filter fun c => keepDir skip_hidden_dirs c.name).any
        (fun c => c.name == ".git") then
      [dirpath]
    else
      walkChildren skip_hidden_dirs dirpath children
/-- Descent of os.walk into the filtered subdirectories, legacy version. -/
def walkChildren (skip_hidden_dirs : Bool) (dirpath : List String) :
    List DirTree → List (List String)
  | [] => []
  | c :: cs =>
    (if keepDir skip_hidden_dirs c.name then
      walkTree skip_hidden_dirs (dirpath ++ [c.name]) c
    else []) ++ walkChildren skip_hidden_dirs dirpath cs
end

/-- Embedding of the legacy get_git_repos (main.py lines 13-21). -/
def get_git_repos (skip_hidden_dirs : Bool) (rootPath : List String)
    (root : DirTree) : List (List String) :=
  walkTree skip_hidden_dirs rootPath root

end Legacy

namespace Gitwip

/- ### Concrete runner fixtures used to instantiate the theorems -/

/-- Fixture: a repository whose remote HEAD symbolic ref is set. -/
def wRunSym : List String → Option String :=
  fun args => if args = qSymbolicRef then some "refs/remotes/origin/main\n" else none

/-- Fixture: same symbolic ref as wRunSym but every other query answers,
to exhibit that later strategies are never consulted. -/
def wRunSymB : List String → Option String :=
  fun args =>
    if args = qSymbolicRef then some "refs/remotes/origin/main\n"
    else some "HEAD branch: other"

/-- Fixture: the stripped descriptive output of remote show origin. -/
def wShowOut : String := "* remote origin\n  HEAD branch: trunk"

/-- Fixture: a repository with no symbolic ref but a readable remote. -/
def wRunShow : List String → Option String :=
  fun args => if args = qRemoteShow then some wShowOut else none

/-- Fixture: like wRunShow but with a local main branch as well, to exhibit
that the conventional probe is never consulted. -/
def wRunShowB : List String → Option String :=
  fun args =>
    if args = qRemoteShow then some wShowOut
    else if args = qShowRef "main" then some "deadbeef refs/heads/main" else none

/-- Fixture: every query succeeds with empty output. -/
def wRunEmptyOut : List String → Option String := fun _ => some ""

/-- Fixture: no remote queries succeed, a local main branch exists. -/
def wProbeMain : List String → Option String :=
  fun args => if args = qShowRef "main" then some "deadbeef refs/heads/main" else none

/-- Fixture: every query fails. -/
def wRunNone : List String → Option String := fun _ => none

/-- Fixture: a repository where every invocation fails. -/
def wGitNone : List String → List String → Option String := fun _ _ => none

/-- Fixture: a repository whose only branch is its resolved primary. -/
def wGitOnlyMain : List String → List String → Option String :=
  fun _ args =>
    if args = branchArgs then some "main\n"
    else if args = qSymbolicRef then some "refs/remotes/origin/main" else none

end Gitwip
namespace Gitwip

/- ### Helper lemmas -/

/-- Codepoint-lexicographic comparison is total. -/
theorem chListLe_total : ∀ x y : List Char, chListLe x y = true ∨ chListLe y x = true := by
  intro x
  induction x with
  | nil => intro y; left; rfl
  | cons a as ih =>
    intro y
    cases y with
    | nil => right; rfl
    | cons b bs =>
      by_cases h : a.toNat = b.toNat
      · have e1 : chListLe (a :: as) (b :: bs) = chListLe as bs := by
          simp [chListLe, h]
        have e2 : chListLe (b :: bs) (a :: as) = chListLe bs as := by
          simp [chListLe, h.symm]
        rw [e1, e2]
        exact ih bs
      · have h' : b.toNat ≠ a.toNat := fun hc => h hc.symm
        rcases Nat.lt_or_ge a.toNat b.toNat with hlt | hge
        · left; simp [chListLe, h, hlt]
        · right
          have : b.toNat < a.toNat := Nat.lt_of_le_of_ne hge h'
          simp [chListLe, h', this]

/-- Codepoint-lexicographic comparison is transitive. -/
theorem chListLe_trans :
    ∀ x y z : List Char, chListLe x y = true → chListLe y z = true → chListLe x z = true := by
  intro x
  induction x with
  | nil => intro y z _ _; rfl
  | cons a as ih =>
    intro y z hxy hyz
    cases y with
    | nil => simp [chListLe] at hxy
    | cons b bs =>
      cases z with
      | nil => simp [chListLe] at hyz
      | cons c cs =>
        by_cases hab : a.toNat = b.toNat
        · by_cases hbc : b.toNat = c.toNat
          · have hac : a.toNat = c.toNat := hab.trans hbc
            have e1 : chListLe (a :: as) (b :: bs) = chListLe as bs := by
              simp [chListLe, hab]
            have e2 : chListLe (b :: bs) (c :: cs) = chListLe bs cs := by
              simp [chListLe, hbc]
            have e3 : chListLe (a :: as) (c :: cs) = chListLe as cs := by
              simp [chListLe, hac]
            rw [e1] at hxy
            rw [e2] at hyz
            rw [e3]
            exact ih bs cs hxy hyz
          · have hyz' : b.toNat < c.toNat := by
              simpa [chListLe, hbc] using hyz
            have hac : a.toNat ≠ c.toNat := by omega
            have hlt : a.toNat < c.toNat := by omega
            simp [chListLe, hac, hlt]
        · have hxy' : a.toNat < b.toNat := by
            simpa [chListLe, hab] using hxy
          by_cases hbc : b.toNat = c.toNat
          · have hac : a.toNat ≠ c.toNat := by omega
            have hlt : a.toNat < c.toNat := by omega
            simp [chListLe, hac, hlt]
          · have hyz' : b.toNat < c.toNat := by
              simpa [chListLe, hbc] using hyz
            have hac : a.toNat ≠ c.toNat := by omega
            have hlt : a.toNat < c.toNat := by omega
            simp [chListLe, hac, hlt]

instance : IsTotal (List String) pathLe :=
  ⟨fun a b => chListLe_total (pathStr a).data (pathStr b).data⟩

instance : IsTrans (List String) pathLe :=
  ⟨fun a b c => chListLe_trans (pathStr a).data (pathStr b).data (pathStr c).data⟩

/-- Relativizing a component list to itself yields the empty remainder. -/
theorem componentsAfter_self : ∀ l : List String, componentsAfter l l = some [] := by
  intro l
  induction l with
  | nil => rfl
  | cons a as ih => simp [componentsAfter, ih]

/-- The directory .git always survives the hidden filter. -/
theorem keepDir_git (skip : Bool) : keepDir skip ".git" = true := by
  cases skip <;> decide

/-- Membership of .git among subdirectory names is unchanged by the hidden
filter, because the filter always keeps .git. -/
theorem filter_any_git (skip : Bool) (children : List DirTree) :
    ((children.filter fun c => keepDir skip c.name).any fun c => c.name == ".git")
      = (children.any fun c => c.name == ".git") := by
  induction children with
  | nil => rfl
  | cons c cs ih =>
    by_cases hg : c.name = ".git"
    · have hk : keepDir skip c.name = true := by rw [hg]; exact keepDir_git skip
      simp [List.filter_cons, List.any_cons, hk, ih]
    · have hgb : (c.name == ".git") = false := beq_eq_false_iff_ne.mpr hg
      by_cases hk : keepDir skip c.name
      · simp [List.filter_cons, List.any_cons, hk, hgb, ih]
      · simp only [Bool.not_eq_true] at hk
        simp [List.filter_cons, List.any_cons, hk, hgb, ih]

/-- The child walk distributes over list concatenation. -/
theorem walkChildren_append (skip : Bool) (p : List String) (l1 l2 : List DirTree) :
    walkChildren skip p (l1 ++ l2) = walkChildren skip p l1 ++ walkChildren skip p l2 := by
  induction l1 with
  | nil => simp [walkChildren]
  | cons c cs ih => simp [walkChildren, ih]

end Gitwip
/- ### Agreement of the two locator embeddings -/

mutual
/-- The packaged and legacy per-directory walks coincide. -/
theorem walkTree_agree (skip : Bool) (p : List String) (t : DirTree) :
    Gitwip.walkTree skip p t = Legacy.walkTree skip p t := by
  cases t with
  | mk n children =>
    rw [Gitwip.walkTree, Legacy.walkTree]
    have hkeep : (fun c : DirTree => Legacy.keepDir skip c.name)
        = (fun c : DirTree => Gitwip.keepDir skip c.name) := rfl
    rw [hkeep]
    by_cases h : ((children.filter fun c => Gitwip.keepDir skip c.name).any
        fun c => c.name == ".git") = true
    · rw [if_pos h, if_pos h]
    · rw [if_neg h, if_neg h]
      exact walkChildren_agree skip p children
/-- The packaged and legacy child walks coincide. -/
theorem walkChildren_agree (skip : Bool) (p : List String) (l : List DirTree) :
    Gitwip.walkChildren skip p l = Legacy.walkChildren skip p l := by
  cases l with
  | nil => rfl
  | cons c cs =>
    rw [Gitwip.walkChildren, Legacy.walkChildren]
    rw [walkChildren_agree skip p cs]
    have hkeep : Legacy.keepDir skip c.name = Gitwip.keepDir skip c.name := rfl
    rw [hkeep]
    by_cases h : Gitwip.keepDir skip c.name = true
    · rw [if_pos h, if_pos h, walkTree_agree skip (p ++ [c.name]) c]
    · rw [if_neg h, if_neg h]
end
namespace Gitwip

/- ### Claim theorems -/

/-- Claim C1: whenever the symbolic-ref query over refs/remotes/origin/HEAD
yields a non-empty string, get_primary_branch returns exactly that string
with the prefix refs/remotes/origin/ stripped, and no later strategy is
attempted: the result is the same for any runner answering the first query
identically, regardless of every other query. -/
theorem primary_branch_symbolic_first (r r' : List String → Option String)
    (ref : String)
    (h : run_git r qSymbolicRef = some ref) (hne : ref ≠ "")
    (h' : run_git r' qSymbolicRef = some ref) :
    get_primary_branch r = some (removeLeading "refs/remotes/origin/" ref)
    ∧ get_primary_branch r' = get_primary_branch r := by
  have hb : (ref == "") = false := beq_eq_false_iff_ne.mpr hne
  have step : ∀ s : List String → Option String, run_git s qSymbolicRef = some ref →
      get_primary_branch s = some (removeLeading "refs/remotes/origin/" ref) := by
    intro s hs
    rw [get_primary_branch, hs]
    simp [truthy, hb]
  exact ⟨step r h, (step r' h').trans (step r h).symm⟩

/-- Claim C1 witness: a concrete runner exercising the first strategy. -/
theorem primary_branch_symbolic_first_check :
    run_git wRunSym qSymbolicRef = some "refs/remotes/origin/main"
    ∧ ("refs/remotes/origin/main" : String) ≠ ""
    ∧ run_git wRunSymB qSymbolicRef = some "refs/remotes/origin/main"
    ∧ get_primary_branch wRunSym = some "main"
    ∧ get_primary_branch wRunSymB = get_primary_branch wRunSym := by
  have h := primary_branch_symbolic_first wRunSym wRunSymB "refs/remotes/origin/main"
    (by decide) (by decide) (by decide)
  refine ⟨by decide, by decide, by decide, ?_, h.2⟩
  rw [h.1]
  decide

/-- Claim C4: when the first strategy yields nothing and remote show origin
succeeds with non-empty output containing a line with the marker, the
resolver returns the stripped text after the first colon of the first such
line (the value of findHeadBranch); the result does not depend on any later
query; and a remote-show invocation with no truthy output never wins: the
resolver then continues with the conventional-name probe. -/
theorem primary_branch_remote_show (r r1 r2 : List String → Option String)
    (out : String)
    (h1 : truthy (run_git r qSymbolicRef) = false)
    (h2 : run_git r qRemoteShow = some out)
    (h3 : out ≠ "")
    (h4 : (findHeadBranch (splitLines out)).isSome = true)
    (h5 : run_git r1 qSymbolicRef = run_git r qSymbolicRef)
    (h6 : run_git r1 qRemoteShow = run_git r qRemoteShow)
    (h7 : truthy (run_git r2 qSymbolicRef) = false)
    (h8 : truthy (run_git r2 qRemoteShow) = false) :
    get_primary_branch r = findHeadBranch (splitLines out)
    ∧ get_primary_branch r1 = get_primary_branch r
    ∧ get_primary_branch r2 = probeLoop r2 ["main", "master"] := by
  have hob : (out == "") = false := beq_eq_false_iff_ne.mpr h3
  obtain ⟨b, hb⟩ := Option.isSome_iff_exists.mp h4
  have step : ∀ s : List String → Option String,
      truthy (run_git s qSymbolicRef) = false → run_git s qRemoteShow = some out →
      get_primary_branch s = findHeadBranch (splitLines out) := by
    intro s hs1 hs2
    rw [get_primary_branch, hs1]
    simp only [Bool.false_eq_true, if_false]
    rw [hs2]
    simp only [truthy, hob, Bool.not_false, if_pos rfl, Option.getD_some]
    rw [hb]
    simp
  refine ⟨step r h1 h2, ?_, ?_⟩
  · rw [step r1 (h5 ▸ h1) (h6.trans h2), step r h1 h2]
  · rw [get_primary_branch, h7]
    simp only [Bool.false_eq_true, if_false]
    rw [h8]
    simp only [Bool.false_eq_true, if_false]

/-- Claim C4 witness: concrete runners exercising the second strategy, its
independence from the probe queries, and the non-empty gate. -/
theorem primary_branch_remote_show_check :
    truthy (run_git wRunShow qSymbolicRef) = false
    ∧ run_git wRunShow qRemoteShow = some wShowOut
    ∧ wShowOut ≠ ""
    ∧ (findHeadBranch (splitLines wShowOut)).isSome = true
    ∧ run_git wRunShowB qSymbolicRef = run_git wRunShow qSymbolicRef
    ∧ run_git wRunShowB qRemoteShow = run_git wRunShow qRemoteShow
    ∧ truthy (run_git wRunEmptyOut qSymbolicRef) = false
    ∧ truthy (run_git wRunEmptyOut qRemoteShow) = false
    ∧ get_primary_branch wRunShow = some "trunk"
    ∧ get_primary_branch wRunShowB = get_primary_branch wRunShow
    ∧ get_primary_branch wRunEmptyOut = probeLoop wRunEmptyOut ["main", "master"] := by
  have h := primary_branch_remote_show wRunShow wRunShowB wRunEmptyOut wShowOut
    (by decide) (by decide) (by decide) (by decide) (by decide) (by decide)
    (by decide) (by decide)
  refine ⟨by decide, by decide, by decide, by decide, by decide, by decide,
    by decide, by decide, ?_, h.2.1, h.2.2⟩
  rw [h.1]
  decide

/-- Claim C5: when neither remote strategy yields a result, the resolver
probes main before master and returns the first whose local ref verifies;
when neither verifies it returns none. -/
theorem primary_branch_conventional_probe (r : List String → Option String)
    (h1 : truthy (run_git r qSymbolicRef) = false)
    (h2 : (if truthy (run_git r qRemoteShow) then
        findHeadBranch (splitLines ((run_git r qRemoteShow).getD "")) else none) = none) :
    (truthy (run_git r (qShowRef "main")) = true → get_primary_branch r = some "main")
    ∧ (truthy (run_git r (qShowRef "main")) = false →
        truthy (run_git r (qShowRef "master")) = true →
        get_primary_branch r = some "master")
    ∧ (truthy (run_git r (qShowRef "main")) = false →
        truthy (run_git r (qShowRef "master")) = false →
        get_primary_branch r = none) := by
  have hp : get_primary_branch r = probeLoop r ["main", "master"] := by
    rw [get_primary_branch, h1]
    simp only [Bool.false_eq_true, if_false]
    rw [h2]
  refine ⟨?_, ?_, ?_⟩
  · intro hm
    rw [hp, probeLoop, hm]
    simp
  · intro hm hM
    rw [hp, probeLoop, hm]
    simp only [Bool.false_eq_true, if_false]
    rw [probeLoop, hM]
    simp
  · intro hm hM
    rw [hp, probeLoop, hm]
    simp only [Bool.false_eq_true, if_false]
    rw [probeLoop, hM]
    simp only [Bool.false_eq_true, if_false]
    rfl

/-- Claim C5 witness: a repository with only a local main branch resolves
to main, and a repository answering no query at all resolves to none. -/
theorem primary_branch_conventional_probe_check :
    truthy (run_git wProbeMain qSymbolicRef) = false
    ∧ truthy (run_git wProbeMain (qShowRef "main")) = true
    ∧ get_primary_branch wProbeMain = some "main"
    ∧ truthy (run_git wRunNone (qShowRef "main")) = false
    ∧ truthy (run_git wRunNone (qShowRef "master")) = false
    ∧ get_primary_branch wRunNone = none := by
  have ha := primary_branch_conventional_probe wProbeMain (by decide) (by decide)
  have hb := primary_branch_conventional_probe wRunNone (by decide) (by decide)
  exact ⟨by decide, by decide, ha.1 (by decide), by decide, by decide,
    hb.2.2 (by decide) (by decide)⟩

end Gitwip
namespace Gitwip

/-- Claim C2: the report builder retains exactly the listed branch names
not equal to the resolved primary branch, and when resolution is absent no
branch is filtered out. -/
theorem report_filter_exact (all_branches : List String)
    (primary_branch : Option String) :
    filterBranches all_branches primary_branch
        = all_branches.filter (fun b => decide (some b ≠ primary_branch))
    ∧ (primary_branch = none →
        filterBranches all_branches primary_branch = all_branches) := by
  constructor
  · apply List.filter_congr
    intro b _
    by_cases h : some b = primary_branch
    · simp [h]
    · simp [h]
  · intro h
    subst h
    simp [filterBranches]

/-- Claim C2 witness: concrete branch lists through the filter. -/
theorem report_filter_exact_check :
    filterBranches ["main", "feat"] (some "main")
        = (["main", "feat"].filter fun b => decide (some b ≠ some "main"))
    ∧ filterBranches ["main", "feat"] none = ["main", "feat"] :=
  ⟨(report_filter_exact ["main", "feat"] (some "main")).1,
   (report_filter_exact ["main", "feat"] none).2 rfl⟩

/-- Claim C3: the report loop iterates the resolved repository paths in
the order sorted ascending by their canonical path string, and the emitted
report is the concatenation of the per-repository reports in that order. -/
theorem report_order_sorted (home : List String)
    (gitRaw : List String → List String → Option String)
    (resolve : List String → List String)
    (root : DirTree) (rootPath : List String) (skip_hidden_dirs : Bool) :
    List.Sorted pathLe
      (repoIterationOrder (get_git_repos skip_hidden_dirs rootPath root) resolve)
    ∧ find_repos_with_branches home gitRaw resolve root rootPath skip_hidden_dirs
        = (repoIterationOrder (get_git_repos skip_hidden_dirs rootPath root)
            resolve).flatMap (repoReport home gitRaw) :=
  ⟨List.sorted_insertionSort pathLe _, rfl⟩

/-- An element of a duplicate-free list is counted exactly once. -/
theorem count_one_of_nodup_mem {a : List String} {l : List (List String)}
    (hnd : l.Nodup) (h : a ∈ l) : l.count a = 1 := by
  induction l with
  | nil => cases h
  | cons x xs ih =>
    have hx := List.nodup_cons.mp hnd
    rw [List.count_cons]
    rcases List.mem_cons.mp h with hax | hmem
    · subst hax
      have hz : xs.count a = 0 := List.count_eq_zero.mpr hx.1
      simp [hz]
    · have hne : ¬x = a := by
        intro hc
        subst hc
        exact hx.1 hmem
      rw [ih hx.2 hmem]
      simp [hne]

/-- Claim C9: the repository paths handed to the report loop are free of
duplicates after canonicalization, and every canonical path of a located
repository occurs exactly once in the iteration order. -/
theorem repo_paths_deduplicated (resolve : List String → List String)
    (root : DirTree) (rootPath : List String) (skip_hidden_dirs : Bool)
    (q : List String)
    (hq : q ∈ (get_git_repos skip_hidden_dirs rootPath root).map resolve) :
    (repoIterationOrder (get_git_repos skip_hidden_dirs rootPath root) resolve).Nodup
    ∧ (repoIterationOrder (get_git_repos skip_hidden_dirs rootPath root)
        resolve).count q = 1 := by
  have hperm : List.Perm
      (repoIterationOrder (get_git_repos skip_hidden_dirs rootPath root) resolve)
      ((get_git_repos skip_hidden_dirs rootPath root).map resolve).dedup :=
    List.perm_insertionSort pathLe _
  have hnd : (repoIterationOrder (get_git_repos skip_hidden_dirs rootPath root)
      resolve).Nodup :=
    hperm.nodup_iff.mpr (List.nodup_dedup _)
  have hmem : q ∈ repoIterationOrder (get_git_repos skip_hidden_dirs rootPath root)
      resolve :=
    hperm.mem_iff.mpr (List.mem_dedup.mpr hq)
  exact ⟨hnd, count_one_of_nodup_mem hnd hmem⟩

/-- Claim C9 witness: a concrete scan with a duplicated resolved path. -/
theorem repo_paths_deduplicated_check :
    (["r"] ∈ (get_git_repos true ["r"] (.mk "r" [.mk ".git" []])).map id)
    ∧ (repoIterationOrder (get_git_repos true ["r"] (.mk "r" [.mk ".git" []])) id).Nodup
    ∧ (repoIterationOrder (get_git_repos true ["r"] (.mk "r" [.mk ".git" []])) id).count
        ["r"] = 1 := by
  have h := repo_paths_deduplicated id (.mk "r" [.mk ".git" []]) ["r"] true ["r"]
    (by decide)
  exact ⟨by decide, h.1, h.2⟩

/-- Claim C7: a repository whose filtered branch list is empty contributes
no output lines at all, and a failed branch-listing invocation yields the
empty branch list and hence no output for that repository. -/
theorem empty_branchlist_omitted (home : List String)
    (gitRaw : List String → List String → Option String) (rp : List String) :
    (filterBranches (get_repo_branches (gitRaw rp branchArgs))
        (get_primary_branch (gitRaw rp)) = [] → repoReport home gitRaw rp = [])
    ∧ (gitRaw rp branchArgs = none →
        get_repo_branches (gitRaw rp branchArgs) = []
        ∧ repoReport home gitRaw rp = []) := by
  constructor
  · intro h
    rw [repoReport, h]
    rfl
  · intro h
    have h1 : get_repo_branches (gitRaw rp branchArgs) = [] := by
      rw [h]; rfl
    refine ⟨h1, ?_⟩
    rw [repoReport, h1]
    rfl

/-- Claim C7 witness: a repository whose branch listing fails is omitted,
and a repository whose only branch is its primary is omitted. -/
theorem empty_branchlist_omitted_check :
    wGitNone ["r"] branchArgs = none
    ∧ get_repo_branches (wGitNone ["r"] branchArgs) = []
    ∧ repoReport ["home", "u"] wGitNone ["r"] = []
    ∧ filterBranches (get_repo_branches (wGitOnlyMain ["r"] branchArgs))
        (get_primary_branch (wGitOnlyMain ["r"])) = []
    ∧ repoReport ["home", "u"] wGitOnlyMain ["r"] = [] := by
  have ha := (empty_branchlist_omitted ["home", "u"] wGitNone ["r"]).2 rfl
  have hb := (empty_branchlist_omitted ["home", "u"] wGitOnlyMain ["r"]).1 (by decide)
  exact ⟨rfl, ha.1, ha.2, by decide, hb⟩

/-- Claim C8 counterexample: when the repository root is the home directory
itself, relativization does not fail and the code renders the tilde-dot
display path, not the absolute canonical path the claim requires. -/
theorem display_path_home_itself_not_absolute :
    display_path ["home", "user"] ["home", "user"] = "~/."
    ∧ display_path ["home", "user"] ["home", "user"] ≠ pathStr ["home", "user"] := by
  constructor
  · decide
  · decide

/-- Claim C8 amended: display-path computation is total; when the
repository path is home or a descendant of home it renders relative to
home with a tilde prefix, the home directory itself rendering as the
tilde-dot path; it falls back to the absolute canonical path exactly on
relativization failure, that is when home is not a componentwise prefix. -/
theorem display_path_total_cases (home rp rel : List String) :
    (relative_to rp home = some rel → display_path home rp = "~/" ++ relStr rel)
    ∧ (relative_to rp home = none → display_path home rp = pathStr rp)
    ∧ display_path home home = "~/." := by
  refine ⟨?_, ?_, ?_⟩
  · intro h
    rw [display_path, h]
  · intro h
    rw [display_path, h]
  · rw [display_path, relative_to, componentsAfter_self]
    rfl

/-- Claim C8 witness: the three display-path shapes on concrete paths. -/
theorem display_path_total_cases_check :
    display_path ["home", "u"] ["home", "u", "proj"] = "~/proj"
    ∧ display_path ["home", "u"] ["srv", "x"] = "/srv/x"
    ∧ display_path ["home", "u"] ["home", "u"] = "~/." := by
  have h1 := display_path_total_cases ["home", "u"] ["home", "u", "proj"] ["proj"]
  have h2 := display_path_total_cases ["home", "u"] ["srv", "x"] []
  refine ⟨?_, ?_, h1.2.2⟩
  · rw [h1.1 (by decide)]
    decide
  · rw [h2.2.1 (by decide)]
    decide

end Gitwip
namespace Gitwip

/-- Claim C6: the hidden filter keeps the .git directory itself even when
hidden directories are skipped; whenever .git is among the subdirectories
of a directory the walk records that directory and descends no further, so
nested repositories are never reported; and with skipping enabled, a hidden
subdirectory other than .git contributes nothing to the walk. -/
theorem locator_hidden_and_prune (skip_hidden_dirs : Bool) (cur : List String)
    (nm : String) (children l1 l2 : List DirTree) (c : DirTree) :
    keepDir true ".git" = true
    ∧ ((children.any fun x => x.name == ".git") = true →
        walkTree skip_hidden_dirs cur (.mk nm children) = [cur])
    ∧ (pyStartsWith c.name "." = true → c.name ≠ ".git" →
        walkTree true cur (.mk nm (l1 ++ c :: l2))
          = walkTree true cur (.mk nm (l1 ++ l2))) := by
  refine ⟨by decide, ?_, ?_⟩
  · intro h
    rw [walkTree, filter_any_git, h]
    rfl
  · intro hs hne
    have hk : keepDir true c.name = false := by
      simp [keepDir, hs, hne]
    have hgb : (c.name == ".git") = false := beq_eq_false_iff_ne.mpr hne
    rw [walkTree, walkTree, filter_any_git, filter_any_git]
    have hany : ((l1 ++ c :: l2).any fun x => x.name == ".git")
        = ((l1 ++ l2).any fun x => x.name == ".git") := by
      simp [List.any_append, List.any_cons, hgb]
    rw [hany]
    by_cases hcond : ((l1 ++ l2).any fun x => x.name == ".git") = true
    · rw [hcond]
      simp
    · simp only [Bool.not_eq_true] at hcond
      rw [hcond]
      simp only [Bool.false_eq_true, if_false]
      rw [walkChildren_append, walkChildren_append, walkChildren, hk]
      simp

/-- Claim C6 witness: a repository root containing .git next to a nested
repository records only the root, and a repository inside a hidden
directory is invisible when hidden directories are skipped. -/
theorem locator_hidden_and_prune_check :
    keepDir true ".git" = true
    ∧ ([DirTree.mk ".git" [], DirTree.mk "sub" [DirTree.mk ".git" []]].any
        fun x => x.name == ".git") = true
    ∧ walkTree true ["r"]
        (.mk "r" [DirTree.mk ".git" [], DirTree.mk "sub" [DirTree.mk ".git" []]])
        = [["r"]]
    ∧ pyStartsWith (DirTree.mk ".cache" [DirTree.mk "repo" [DirTree.mk ".git" []]]).name
        "." = true
    ∧ (DirTree.mk ".cache" [DirTree.mk "repo" [DirTree.mk ".git" []]]).name ≠ ".git"
    ∧ walkTree true ["r"]
        (.mk "r" [DirTree.mk ".cache" [DirTree.mk "repo" [DirTree.mk ".git" []]],
          DirTree.mk "a" []])
        = walkTree true ["r"] (.mk "r" [DirTree.mk "a" []]) := by
  have h := locator_hidden_and_prune true ["r"] "r"
    [DirTree.mk ".git" [], DirTree.mk "sub" [DirTree.mk ".git" []]]
    [] [DirTree.mk "a" []]
    (DirTree.mk ".cache" [DirTree.mk "repo" [DirTree.mk ".git" []]])
  exact ⟨h.1, by decide, h.2.1 (by decide), by decide, by decide,
    h.2.2 (by decide) (by decide)⟩

end Gitwip

/-- Claim C10: the packaged locator and the legacy flat-script locator
compute identical repository-path lists on every directory tree, root path
and hidden-skipping flag. -/
theorem locator_implementations_agree (skip_hidden_dirs : Bool)
    (rootPath : List String) (root : DirTree) :
    Gitwip.get_git_repos skip_hidden_dirs rootPath root
      = Legacy.get_git_repos skip_hidden_dirs rootPath root :=
  walkTree_agree skip_hidden_dirs rootPath root
